import Mathlib

/-!
Verification development for the olympiad-medal aggregation program
(scrape_data.py and add_alpha2_codes.py).

The HTML-fetching and table-locating layer is external I/O; the embedding
starts from the per-row data that layer yields (country label / cell text
and the three medal cells) and models the core logic faithfully:

- Python dicts are association lists in insertion order; dict assignment
  updates the value in place when the key exists and appends otherwise.
- Python str.lower / str.upper / slicing are modelled on the code-point
  list of the string (ASCII case mapping, as used by the data).
- A medal cell whose text does not parse as an integer is modelled as
  none (the code skips such rows via a ValueError handler).
- Python set iteration order is unspecified; where the code iterates a
  set, the embedding fixes one enumeration and the proved properties are
  independent of that choice.
-/

/-- Model of Python substring test: does the needle occur as a prefix of
the haystack (both as code-point lists)? -/
def charsStartsWith : List Char → List Char → Bool
  | _, [] => true
  | [], _ :: _ => false
  | a :: as, b :: bs => a == b && charsStartsWith as bs

/-- Model of Python substring containment: needle occurs contiguously in
the haystack. -/
def charsContains : List Char → List Char → Bool
  | [], needle => needle.isEmpty
  | a :: as, needle => charsStartsWith (a :: as) needle || charsContains as needle

/-- Model of Python str.lower (code-point-wise case mapping). -/
def strLower (s : String) : String := ⟨s.data.map Char.toLower⟩

/-- Model of Python str.upper (code-point-wise case mapping). -/
def strUpper (s : String) : String := ⟨s.data.map Char.toUpper⟩

/-- Model of Python s[:n] (first n code points). -/
def strTake (s : String) (n : Nat) : String := ⟨s.data.take n⟩

/-- Model of Python `needle.lower() in hay.lower()`. -/
def strContainsCI (hay needle : String) : Bool :=
  charsContains (strLower hay).data (strLower needle).data

/-- Association list lookup: model of Python dict `.get`. -/
def alistLookup {α : Type} : List (String × α) → String → Option α
  | [], _ => none
  | (k', v') :: t, k => if k' = k then some v' else alistLookup t k

/-- Association list store: model of Python dict assignment `d[k] = v`
(update in place when the key exists, append otherwise). -/
def alistInsert {α : Type} : List (String × α) → String → α → List (String × α)
  | [], k, v => [(k, v)]
  | (k', v') :: t, k, v =>
    if k' = k then (k, v) :: t else (k', v') :: alistInsert t k v

/-- The keys of an association list, in insertion order. -/
def alistKeys {α : Type} (l : List (String × α)) : List String := l.map (·.1)

/-- A per-source medal tally, as stored by the parsers: the dict
with keys gold, silver, bronze, total. -/
structure MedalTally where
  gold : Nat
  silver : Nat
  bronze : Nat
  total : Nat
deriving DecidableEq

/-- HISTORICAL_COUNTRIES from scrape_data.py (a Python set literal; the
duplicate "Czechoslovakia" entry collapses to one member). -/
def HISTORICAL_COUNTRIES : List String :=
  [ "Soviet Union"
  , "Yugoslavia"
  , "East Germany"
  , "Czechoslovakia"
  , "German Democratic Republic"
  , "Socialist Federal Republic of Yugoslavia"
  , "Commonwealth of Independent States"
  , "Serbia and Montenegro"
  , "CIS"
  , "Union of Soviet Socialist Republics"
  ]

/-- COUNTRY_CODE_MAP from scrape_data.py, in dict insertion order.  The
duplicate "Albania" key (also mapped to "ALB" the second time) collapses
to its first occurrence, as in a Python dict literal. -/
def COUNTRY_CODE_MAP : List (String × String) :=
  [ ("United States", "USA")
  , ("United States of America", "USA")
  , ("China", "CHN")
  , ("People's Republic of China", "CHN")
  , ("Russia", "RUS")
  , ("South Korea", "KOR")
  , ("Republic of Korea", "KOR")
  , ("Hungary", "HUN")
  , ("Romania", "ROU")
  , ("Vietnam", "VNM")
  , ("United Kingdom", "GBR")
  , ("Bulgaria", "BGR")
  , ("Germany", "DEU")
  , ("Iran", "IRN")
  , ("Islamic Republic of Iran", "IRN")
  , ("Japan", "JPN")
  , ("Taiwan", "TWN")
  , ("Ukraine", "UKR")
  , ("Canada", "CAN")
  , ("Poland", "POL")
  , ("Thailand", "THA")
  , ("Australia", "AUS")
  , ("Singapore", "SGP")
  , ("France", "FRA")
  , ("Israel", "ISR")
  , ("Turkey", "TUR")
  , ("TÃ¼rkiye", "TUR")
  , ("Italy", "ITA")
  , ("India", "IND")
  , ("North Korea", "PRK")
  , ("Democratic People's Republic of Korea", "PRK")
  , ("Belarus", "BLR")
  , ("Kazakhstan", "KAZ")
  , ("Hong Kong", "HKG")
  , ("Serbia", "SRB")
  , ("Brazil", "BRA")
  , ("Austria", "AUT")
  , ("Netherlands", "NLD")
  , ("Mongolia", "MNG")
  , ("Peru", "PER")
  , ("Slovakia", "SVK")
  , ("Czech Republic", "CZE")
  , ("Sweden", "SWE")
  , ("Mexico", "MEX")
  , ("Croatia", "HRV")
  , ("Indonesia", "IDN")
  , ("Argentina", "ARG")
  , ("Georgia", "GEO")
  , ("Malaysia", "MYS")
  , ("Greece", "GRC")
  , ("Moldova", "MDA")
  , ("Philippines", "PHL")
  , ("Switzerland", "CHE")
  , ("Bosnia and Herzegovina", "BIH")
  , ("Norway", "NOR")
  , ("North Macedonia", "MKD")
  , ("Portugal", "PRT")
  , ("Belgium", "BEL")
  , ("New Zealand", "NZL")
  , ("Lithuania", "LTU")
  , ("Macau", "MAC")
  , ("Luxembourg", "LUX")
  , ("Armenia", "ARM")
  , ("Colombia", "COL")
  , ("South Africa", "ZAF")
  , ("Finland", "FIN")
  , ("Latvia", "LVA")
  , ("Slovenia", "SVN")
  , ("Bangladesh", "BGD")
  , ("Cuba", "CUB")
  , ("Denmark", "DNK")
  , ("Tunisia", "TUN")
  , ("Kyrgyzstan", "KGZ")
  , ("Algeria", "DZA")
  , ("Uzbekistan", "UZB")
  , ("Saudi Arabia", "SAU")
  , ("Estonia", "EST")
  , ("Spain", "ESP")
  , ("Azerbaijan", "AZE")
  , ("Turkmenistan", "TKM")
  , ("Cyprus", "CYP")
  , ("Tajikistan", "TJK")
  , ("Syria", "SYR")
  , ("Morocco", "MAR")
  , ("Ireland", "IRL")
  , ("Chile", "CHL")
  , ("Montenegro", "MNE")
  , ("Albania", "ALB")
  , ("Pakistan", "PAK")
  , ("Trinidad and Tobago", "TTO")
  , ("Venezuela", "VEN")
  , ("Costa Rica", "CRI")
  , ("Iceland", "ISL")
  , ("Paraguay", "PRY")
  , ("El Salvador", "SLV")
  , ("Liechtenstein", "LIE")
  , ("Ivory Coast", "CIV")
  , ("Sri Lanka", "LKA")
  , ("Ecuador", "ECU")
  , ("Afghanistan", "AFG")
  , ("Bahrain", "BHR")
  , ("Benin", "BEN")
  , ("Bolivia", "BOL")
  , ("Botswana", "BWA")
  , ("Brunei", "BRN")
  , ("Burkina Faso", "BFA")
  , ("Cambodia", "KHM")
  , ("Egypt", "EGY")
  , ("Gambia", "GMB")
  , ("Ghana", "GHA")
  , ("Guatemala", "GTM")
  , ("Honduras", "HND")
  , ("Iraq", "IRQ")
  , ("Kenya", "LKA")
  , ("Kosovo", "KSV")
  , ("Kuwait", "KWT")
  , ("Madagascar", "MDG")
  , ("Mauritania", "MRT")
  , ("Mozambique", "MOZ")
  , ("Myanmar", "MMR")
  , ("Nepal", "NPL")
  , ("Nicaragua", "NIC")
  , ("Nigeria", "NGA")
  , ("Panama", "PAN")
  , ("Puerto Rico", "PRI")
  , ("Qatar", "QAT")
  , ("Senegal", "SEN")
  , ("Suriname", "SUR")
  , ("Tanzania", "TZA")
  , ("Uganda", "UGA")
  , ("United Arab Emirates", "ARE")
  , ("Uruguay", "URY")
  , ("Zimbabwe", "ZWE")
  , ("Jordan", "JOR")
  , ("Malta", "MLT")
  , ("Palestine", "PSE")
  , ("Dominican Republic", "DOM")
  , ("Gabon", "GAB")
  , ("Libya", "LBY")
  , ("Mauritius", "MUS")
  , ("Rwanda", "RWA")
  ]

/-- The resolver core of normalize_country_names (lines 372-389 of
scrape_data.py): exact dict lookup, then the substring fallback scan in
dict insertion order, then the synthetic pseudo-code fallback.  The Bool
records whether the diagnostic warning of the last branch was printed. -/
def resolveResult (country_name : String) : String × Bool :=
  match alistLookup COUNTRY_CODE_MAP country_name with
  | some code => (code, false)
  | none =>
    match COUNTRY_CODE_MAP.find? (fun p =>
        strContainsCI country_name p.1 || strContainsCI p.1 country_name) with
    | some p => (p.2, false)
    | none => (strUpper (strTake country_name 3), true)

/-- The code that normalize_country_names files a raw label under. -/
def resolveCode (country_name : String) : String := (resolveResult country_name).1

/-- The value stored per code by normalize_country_names: the dict
with keys name and medals. -/
structure Entry where
  name : String
  medals : MedalTally
deriving DecidableEq

/-- One iteration of the normalize_country_names loop (lines 372-399):
resolve the label, and on a code collision keep the existing entry
unless the new label is strictly shorter. -/
def normalizeStep (normalized : List (String × Entry))
    (country_name : String) (medals : MedalTally) : List (String × Entry) :=
  let code := resolveCode country_name
  match alistLookup normalized code with
  | some existing =>
    if existing.name.length ≤ country_name.length then normalized
    else alistInsert normalized code ⟨country_name, medals⟩
  | none => alistInsert normalized code ⟨country_name, medals⟩

/-- normalize_country_names (lines 365-401): fold the loop over the
items of the input dict. -/
def normalize_country_names (data_dict : List (String × MedalTally)) :
    List (String × Entry) :=
  data_dict.foldl (fun acc p => normalizeStep acc p.1 p.2) []

/-- An IMO table row after HTML extraction (parse_imo_data, lines
199-221): the link text chosen as country name, the full text of the
country cell, and the three medal cells (none models a cell whose text
int() rejects). -/
structure ImoRow where
  countryName : String
  cellText : String
  gold : Option Nat
  silver : Option Nat
  bronze : Option Nat
deriving DecidableEq

/-- An IOI or IPhO table row after HTML extraction: the extracted
country name and the three medal cells. -/
structure SourceRow where
  countryName : String
  gold : Option Nat
  silver : Option Nat
  bronze : Option Nat
deriving DecidableEq

/-- The historical scan of parse_imo_data (lines 224-230): the first
member of HISTORICAL_COUNTRIES contained case-insensitively in the cell
text, if any.  (Python iterates the set in unspecified order; whether a
match exists does not depend on the order.) -/
def findHistorical (cellText : String) : Option String :=
  HISTORICAL_COUNTRIES.find? (fun h => strContainsCI cellText h)

/-- The medal-cell parse shared by the three parsers: store the row iff
all three cells parse, with total recomputed as gold+silver+bronze. -/
def rowTally (g s b : Option Nat) : Option MedalTally :=
  match g, s, b with
  | some g, some s, some b => some ⟨g, s, b, g + s + b⟩
  | _, _, _ => none

/-- Per-row core of parse_imo_data (lines 219-249): skip names of at
most 2 characters, overwrite the name with the matched historical name
and skip when the cell text contains one, then parse the medal cells. -/
def imoProcessRow (r : ImoRow) : Option (String × MedalTally) :=
  if r.countryName.length ≤ 2 then none
  else
    match findHistorical r.cellText with
    | some h =>
      if h ∈ HISTORICAL_COUNTRIES then none
      else (rowTally r.gold r.silver r.bronze).map (fun t => (h, t))
    | none => (rowTally r.gold r.silver r.bronze).map (fun t => (r.countryName, t))

/-- Per-row core of parse_ioi_data (lines 286-304): skip rows whose
extracted name is exactly a member of HISTORICAL_COUNTRIES, then parse
the medal cells. -/
def ioiProcessRow (r : SourceRow) : Option (String × MedalTally) :=
  if r.countryName ∈ HISTORICAL_COUNTRIES then none
  else (rowTally r.gold r.silver r.bronze).map (fun t => (r.countryName, t))

/-- Per-row core of parse_ipho_data (lines 341-359): identical decision
logic to the IOI parser (only the cell indices differ, an HTML detail
outside the embedding). -/
def iphoProcessRow (r : SourceRow) : Option (String × MedalTally) :=
  if r.countryName ∈ HISTORICAL_COUNTRIES then none
  else (rowTally r.gold r.silver r.bronze).map (fun t => (r.countryName, t))

/-- The accumulation loop shared by the three parsers: surviving rows
are stored into the data dict under their country name. -/
def parseFold {ρ : Type} (f : ρ → Option (String × MedalTally)) (rows : List ρ) :
    List (String × MedalTally) :=
  rows.foldl (fun acc r =>
    match f r with
    | some (n, t) => alistInsert acc n t
    | none => acc) []

/-- The dict built by the parse_imo_data loop from its extracted rows. -/
def parse_imo_rows (rows : List ImoRow) : List (String × MedalTally) :=
  parseFold imoProcessRow rows

/-- The dict built by the parse_ioi_data loop from its extracted rows. -/
def parse_ioi_rows (rows : List SourceRow) : List (String × MedalTally) :=
  parseFold ioiProcessRow rows

/-- The dict built by the parse_ipho_data loop from its extracted rows. -/
def parse_ipho_rows (rows : List SourceRow) : List (String × MedalTally) :=
  parseFold iphoProcessRow rows

/-- The zero tally used for a source that has no entry for a code
(aggregate_data, lines 434-442). -/
def zeroTally : MedalTally := ⟨0, 0, 0, 0⟩

/-- The per-country medals object of the output: one tally per source
plus the combined tally. -/
structure CountryMedals where
  imo : MedalTally
  ioi : MedalTally
  ipho : MedalTally
  combined : MedalTally
deriving DecidableEq

/-- One country object of the aggregated output list. -/
structure CanonicalCountry where
  code : String
  name : Option String
  medals : CountryMedals
deriving DecidableEq

/-- Model of `normalized.get(code, \x7b\x7d).get("medals", zero)`. -/
def getMedals (m : List (String × Entry)) (code : String) : MedalTally :=
  match alistLookup m code with
  | some e => e.medals
  | none => zeroTally

/-- Model of `normalized.get(code, \x7b\x7d).get("name")`. -/
def getName (m : List (String × Entry)) (code : String) : Option String :=
  (alistLookup m code).map (·.name)

/-- Python `a or b` on optional strings: the first operand unless it is
missing or empty (falsy). -/
def pyOrS (a b : Option String) : Option String :=
  match a with
  | some s => if s.isEmpty then b else some s
  | none => b

/-- The country object aggregate_data builds for one code (lines
424-471): name by source priority IMO, IOI, IPhO, missing tallies
defaulted to zero, combined fields summed field-wise and combined total
summed from the three per-source totals. -/
def mkCountry (imoN ioiN iphoN : List (String × Entry)) (code : String) :
    CanonicalCountry :=
  let im := getMedals imoN code
  let io := getMedals ioiN code
  let ip := getMedals iphoN code
  { code := code
  , name := pyOrS (pyOrS (getName imoN code) (getName ioiN code)) (getName iphoN code)
  , medals :=
    { imo := im
    , ioi := io
    , ipho := ip
    , combined :=
      { gold := im.gold + io.gold + ip.gold
      , silver := im.silver + io.silver + ip.silver
      , bronze := im.bronze + io.bronze + ip.bronze
      , total := im.total + io.total + ip.total } } }

/-- The union of codes of aggregate_data (lines 416-420).  Python
iterates the union as a set, each code exactly once in unspecified
order; the embedding enumerates it as the deduplicated concatenation of
the three key lists.  Every property proved below is independent of the
enumeration order. -/
def allCodes (imoN ioiN iphoN : List (String × Entry)) : List String :=
  (alistKeys imoN ++ alistKeys ioiN ++ alistKeys iphoN).dedup

/-- The sort relation of aggregate_data line 474: combined total
descending. -/
def byCombinedTotalDesc (a b : CanonicalCountry) : Prop :=
  b.medals.combined.total ≤ a.medals.combined.total

instance : DecidableRel byCombinedTotalDesc :=
  fun a b => Nat.decLe b.medals.combined.total a.medals.combined.total

instance : IsTotal CanonicalCountry byCombinedTotalDesc :=
  ⟨fun a b => (Nat.le_total b.medals.combined.total a.medals.combined.total).imp id id⟩

instance : IsTrans CanonicalCountry byCombinedTotalDesc :=
  ⟨fun _ _ _ h1 h2 => Nat.le_trans h2 h1⟩

/-- aggregate_data (lines 404-476): normalize the three sources, build
one country object per code of the union, and sort by combined total
descending.  Python list.sort with reverse=True is a stable sort by
that comparison; insertionSort under the same non-strict relation is
stable too, hence produces the same list. -/
def aggregate_data (imo_data ioi_data ipho_data : List (String × MedalTally)) :
    List CanonicalCountry :=
  let imoN := normalize_country_names imo_data
  let ioiN := normalize_country_names ioi_data
  let iphoN := normalize_country_names ipho_data
  ((allCodes imoN ioiN iphoN).map (mkCountry imoN ioiN iphoN)).insertionSort
    byCombinedTotalDesc

/-- ALPHA3_TO_ALPHA2 from add_alpha2_codes.py, in dict insertion order. -/
def ALPHA3_TO_ALPHA2 : List (String × String) :=
  [ ("AFG", "AF"), ("ALB", "AL"), ("ARE", "AE"), ("ARG", "AR"), ("ARM", "AM")
  , ("AUS", "AU"), ("AUT", "AT"), ("AZE", "AZ"), ("BEL", "BE"), ("BEN", "BJ")
  , ("BFA", "BF"), ("BGD", "BD"), ("BGR", "BG"), ("BHR", "BH"), ("BIH", "BA")
  , ("BLR", "BY"), ("BOL", "BO"), ("BRA", "BR"), ("BRN", "BH"), ("BWA", "BW")
  , ("CAN", "CA"), ("CHE", "CH"), ("CHL", "CL"), ("CHN", "CN"), ("CIV", "CI")
  , ("COL", "CO"), ("CRI", "CR"), ("CUB", "CU"), ("CYP", "CY"), ("CZE", "CZ")
  , ("DEU", "DE"), ("DNK", "DK"), ("DOM", "DO"), ("DZA", "DZ"), ("ECU", "EC")
  , ("EGY", "EG"), ("ESP", "ES"), ("EST", "EE"), ("FIN", "FI"), ("FRA", "FR")
  , ("GAB", "GA"), ("GBR", "GB"), ("GEO", "GE"), ("GHA", "GH"), ("GMB", "GM")
  , ("GRC", "GR"), ("GTM", "GT"), ("HKG", "HK"), ("HND", "HN"), ("HRV", "HR")
  , ("HUN", "HU"), ("IDN", "ID"), ("IND", "IN"), ("IRL", "IE"), ("IRN", "IR")
  , ("IRQ", "IQ"), ("ISL", "IS"), ("ISR", "IL"), ("ITA", "IT"), ("JOR", "JO")
  , ("JPN", "JP"), ("KAZ", "KZ"), ("KGZ", "KG"), ("KHM", "KH"), ("KOR", "KR")
  , ("KSV", "XK"), ("KWT", "KW"), ("LBY", "LY"), ("LIE", "LI"), ("LKA", "LK")
  , ("LTU", "LT"), ("LUX", "LU"), ("LVA", "LV"), ("MAC", "MO"), ("MAR", "MA")
  , ("MDA", "MD"), ("MDG", "MG"), ("MEX", "MX"), ("MKD", "MK"), ("MLT", "MT")
  , ("MMR", "MM"), ("MNE", "ME"), ("MNG", "MN"), ("MOZ", "MZ"), ("MRT", "MR")
  , ("MUS", "MU"), ("MYS", "MY"), ("NGA", "NG"), ("NIC", "NI"), ("NLD", "NL")
  , ("NOR", "NO"), ("NPL", "NP"), ("NZL", "NZ"), ("PAK", "PK"), ("PAN", "PA")
  , ("PER", "PE"), ("PHL", "PH"), ("POL", "PL"), ("PRI", "PR"), ("PRK", "KP")
  , ("PRT", "PT"), ("PRY", "PY"), ("PSE", "PS"), ("QAT", "QA"), ("ROU", "RO")
  , ("RUS", "RU"), ("RWA", "RW"), ("SAU", "SA"), ("SEN", "SN"), ("SGP", "SG")
  , ("SLV", "SV"), ("SRB", "RS"), ("SUR", "SR"), ("SVK", "SK"), ("SVN", "SI")
  , ("SWE", "SE"), ("SYR", "SY"), ("THA", "TH"), ("TJK", "TJ"), ("TKM", "TM")
  , ("TTO", "TT"), ("TUN", "TN"), ("TUR", "TR"), ("TWN", "TW"), ("TZA", "TZ")
  , ("UGA", "UG"), ("UKR", "UA"), ("URY", "UY"), ("USA", "US"), ("UZB", "UZ")
  , ("VEN", "VE"), ("VNM", "VN"), ("ZAF", "ZA"), ("ZWE", "ZW")
  ]

/-- A country object of medals.json as seen by add_alpha2_codes.py: the
fields it reads or writes (code and the optional alpha2 key), the
medals object it must not touch, and the name it prints. -/
structure CountryDoc where
  code : String
  name : Option String
  medals : CountryMedals
  alpha2 : Option String
deriving DecidableEq

/-- The per-country body of the add_alpha2_codes.py main loop (lines
154-160): set the alpha2 key when the code is in ALPHA3_TO_ALPHA2,
otherwise leave the object unchanged (and print a warning). -/
def addAlpha2 (c : CountryDoc) : CountryDoc :=
  match alistLookup ALPHA3_TO_ALPHA2 c.code with
  | some a2 => { c with alpha2 := some a2 }
  | none => c

/-- The whole augmentation pass of add_alpha2_codes.py main (lines
152-160) over the countries list. -/
def add_alpha2_codes (countries : List CountryDoc) : List CountryDoc :=
  countries.map addAlpha2

/-! Association-list lemmas (the dict model). -/

theorem alistInsert_cons_self {α : Type} (t : List (String × α)) (k : String)
    (v v0 : α) : alistInsert ((k, v0) :: t) k v = (k, v) :: t := by
  rw [alistInsert]
  exact if_pos rfl

theorem alistInsert_cons_ne {α : Type} (t : List (String × α)) (k k0 : String)
    (v v0 : α) (h : k0 ≠ k) :
    alistInsert ((k0, v0) :: t) k v = (k0, v0) :: alistInsert t k v := by
  rw [alistInsert]
  exact if_neg h

theorem alistLookup_alistInsert_self {α : Type} (l : List (String × α)) (k : String)
    (v : α) : alistLookup (alistInsert l k v) k = some v := by
  induction l with
  | nil => simp [alistInsert, alistLookup]
  | cons p t ih =>
    obtain ⟨k', v'⟩ := p
    by_cases h : k' = k
    · simp [alistInsert, h, alistLookup]
    · simp [alistInsert, h, alistLookup, ih]

theorem alistLookup_alistInsert_ne {α : Type} (l : List (String × α)) (k k' : String)
    (v : α) (h : k' ≠ k) :
    alistLookup (alistInsert l k v) k' = alistLookup l k' := by
  have h' : ¬k = k' := fun hh => h hh.symm
  induction l with
  | nil => simp [alistInsert, alistLookup, h']
  | cons p t ih =>
    obtain ⟨k0, v0⟩ := p
    by_cases h0 : k0 = k
    · subst h0
      simp [alistInsert, alistLookup, h']
    · simp [alistInsert, h0, alistLookup, ih]

theorem mem_alistInsert {α : Type} (p : String × α) (l : List (String × α))
    (k : String) (v : α) : p ∈ alistInsert l k v → p = (k, v) ∨ p ∈ l := by
  induction l with
  | nil =>
    intro hp
    simp only [alistInsert, List.mem_singleton] at hp
    exact Or.inl hp
  | cons q t ih =>
    obtain ⟨k0, v0⟩ := q
    intro hp
    by_cases h0 : k0 = k
    · rw [alistInsert, if_pos h0] at hp
      rcases List.mem_cons.mp hp with hp | hp
      · exact Or.inl hp
      · exact Or.inr (List.mem_cons_of_mem _ hp)
    · rw [alistInsert, if_neg h0] at hp
      rcases List.mem_cons.mp hp with hp | hp
      · exact Or.inr (by rw [hp]; exact List.mem_cons_self _ _)
      · rcases ih hp with h | h
        · exact Or.inl h
        · exact Or.inr (List.mem_cons_of_mem _ h)

theorem mem_alistKeys_alistInsert {α : Type} (a : String) (l : List (String × α))
    (k : String) (v : α) :
    a ∈ alistKeys (alistInsert l k v) ↔ a = k ∨ a ∈ alistKeys l := by
  induction l with
  | nil => simp [alistInsert, alistKeys]
  | cons q t ih =>
    obtain ⟨k0, v0⟩ := q
    by_cases h0 : k0 = k
    · subst h0
      rw [alistInsert_cons_self]
      simp only [alistKeys, List.map_cons, List.mem_cons]
      tauto
    · rw [alistInsert_cons_ne _ _ _ _ _ h0]
      simp only [alistKeys, List.map_cons, List.mem_cons]
      simp only [alistKeys] at ih
      rw [ih]
      tauto

theorem alistLookup_eq_none_iff {α : Type} (l : List (String × α)) (k : String) :
    alistLookup l k = none ↔ k ∉ alistKeys l := by
  induction l with
  | nil => simp [alistLookup, alistKeys]
  | cons q t ih =>
    obtain ⟨k0, v0⟩ := q
    by_cases h0 : k0 = k
    · subst h0
      simp [alistLookup, alistKeys]
    · have h1 : ¬k = k0 := fun hh => h0 hh.symm
      simp only [alistLookup, if_neg h0, alistKeys, List.map_cons, List.mem_cons]
      simp only [alistKeys] at ih
      rw [ih]
      simp [h1]

theorem alistLookup_some_mem {α : Type} (l : List (String × α)) (k : String)
    (v : α) : alistLookup l k = some v → (k, v) ∈ l := by
  induction l with
  | nil => intro h; simp [alistLookup] at h
  | cons q t ih =>
    obtain ⟨k0, v0⟩ := q
    intro h
    rw [alistLookup] at h
    by_cases h0 : k0 = k
    · rw [if_pos h0] at h
      have hv := Option.some.inj h
      subst hv
      subst h0
      exact List.mem_cons_self _ _
    · rw [if_neg h0] at h
      exact List.mem_cons_of_mem _ (ih h)

/-! Parse-loop lemmas. -/

theorem rowTally_total (g s b : Option Nat) (t : MedalTally)
    (h : rowTally g s b = some t) : t.total = t.gold + t.silver + t.bronze := by
  cases g <;> cases s <;> cases b <;> simp [rowTally] at h
  subst h
  rfl

theorem imoProcessRow_total (r : ImoRow) (n : String) (t : MedalTally)
    (h : imoProcessRow r = some (n, t)) :
    t.total = t.gold + t.silver + t.bronze := by
  unfold imoProcessRow at h
  split at h
  · exact absurd h (by simp)
  · split at h
    · split at h
      · exact absurd h (by simp)
      · rcases Option.map_eq_some'.mp h with ⟨t0, ht0, he⟩
        cases he
        exact rowTally_total _ _ _ _ ht0
    · rcases Option.map_eq_some'.mp h with ⟨t0, ht0, he⟩
      cases he
      exact rowTally_total _ _ _ _ ht0

theorem ioiProcessRow_total (r : SourceRow) (n : String) (t : MedalTally)
    (h : ioiProcessRow r = some (n, t)) :
    t.total = t.gold + t.silver + t.bronze := by
  unfold ioiProcessRow at h
  split at h
  · exact absurd h (by simp)
  · rcases Option.map_eq_some'.mp h with ⟨t0, ht0, he⟩
    cases he
    exact rowTally_total _ _ _ _ ht0

theorem iphoProcessRow_total (r : SourceRow) (n : String) (t : MedalTally)
    (h : iphoProcessRow r = some (n, t)) :
    t.total = t.gold + t.silver + t.bronze := by
  unfold iphoProcessRow at h
  split at h
  · exact absurd h (by simp)
  · rcases Option.map_eq_some'.mp h with ⟨t0, ht0, he⟩
    cases he
    exact rowTally_total _ _ _ _ ht0

/-- Every tally stored by the parse loop satisfies the property that
every tally produced by the row function satisfies. -/
theorem parseFold_inv {ρ : Type} (f : ρ → Option (String × MedalTally))
    (P : MedalTally → Prop)
    (hf : ∀ r n t, f r = some (n, t) → P t) (rows : List ρ) :
    ∀ p ∈ parseFold f rows, P p.2 := by
  suffices h : ∀ acc : List (String × MedalTally), (∀ p ∈ acc, P p.2) →
      ∀ p ∈ rows.foldl (fun acc r =>
        match f r with
        | some (n, t) => alistInsert acc n t
        | none => acc) acc, P p.2 by
    intro p hp
    exact h [] (by simp) p hp
  induction rows with
  | nil => intro acc hacc p hp; exact hacc p hp
  | cons r rest ih =>
    intro acc hacc p hp
    simp only [List.foldl_cons] at hp
    refine ih _ ?_ p hp
    cases hfr : f r with
    | none => simpa [hfr] using hacc
    | some q =>
      obtain ⟨n, t⟩ := q
      intro p' hp'
      simp only [hfr] at hp'
      rcases mem_alistInsert _ _ _ _ hp' with h' | h'
      · subst h'
        exact hf r n t hfr
      · exact hacc p' h'

/-! Aggregation lemmas. -/

theorem mkCountry_code (imoN ioiN iphoN : List (String × Entry)) (code : String) :
    (mkCountry imoN ioiN iphoN code).code = code := rfl

theorem aggregate_data_perm (imo_data ioi_data ipho_data : List (String × MedalTally)) :
    (aggregate_data imo_data ioi_data ipho_data).Perm
      ((allCodes (normalize_country_names imo_data) (normalize_country_names ioi_data)
          (normalize_country_names ipho_data)).map
        (mkCountry (normalize_country_names imo_data) (normalize_country_names ioi_data)
          (normalize_country_names ipho_data))) :=
  List.perm_insertionSort _ _

theorem mem_aggregate_data (imo_data ioi_data ipho_data : List (String × MedalTally))
    (e : CanonicalCountry) :
    e ∈ aggregate_data imo_data ioi_data ipho_data ↔
      ∃ code ∈ allCodes (normalize_country_names imo_data)
          (normalize_country_names ioi_data) (normalize_country_names ipho_data),
        e = mkCountry (normalize_country_names imo_data)
          (normalize_country_names ioi_data) (normalize_country_names ipho_data) code := by
  rw [(aggregate_data_perm imo_data ioi_data ipho_data).mem_iff, List.mem_map]
  constructor
  · rintro ⟨code, hc, rfl⟩
    exact ⟨code, hc, rfl⟩
  · rintro ⟨code, hc, rfl⟩
    exact ⟨code, hc, rfl⟩

theorem mem_allCodes (imoN ioiN iphoN : List (String × Entry)) (s : String) :
    s ∈ allCodes imoN ioiN iphoN ↔
      s ∈ alistKeys imoN ∨ s ∈ alistKeys ioiN ∨ s ∈ alistKeys iphoN := by
  simp [allCodes, List.mem_dedup, List.mem_append, or_assoc]

example : resolveCode "United States" = "USA" := by decide
example : resolveCode "Macao, China" = "CHN" := by decide
example : resolveCode "" = "USA" := by decide
example : resolveCode "Zzz" = "ZZZ" := by decide
example :
    aggregate_data [("France", ⟨10, 5, 2, 17⟩)] [("France", ⟨3, 1, 0, 4⟩)] [] =
      [{ code := "FRA", name := some "France"
       , medals :=
         { imo := ⟨10, 5, 2, 17⟩, ioi := ⟨3, 1, 0, 4⟩, ipho := ⟨0, 0, 0, 0⟩
         , combined := ⟨13, 6, 2, 21⟩ } }] := by decide

theorem getMedals_eq_zeroTally (m : List (String × Entry)) (k : String)
    (h : k ∉ alistKeys m) : getMedals m k = zeroTally := by
  rw [getMedals, (alistLookup_eq_none_iff m k).mpr h]

theorem addAlpha2_code (c : CountryDoc) : (addAlpha2 c).code = c.code := by
  cases hx : alistLookup ALPHA3_TO_ALPHA2 c.code with
  | none => simp [addAlpha2, hx]
  | some a2 => simp [addAlpha2, hx]

theorem addAlpha2_name (c : CountryDoc) : (addAlpha2 c).name = c.name := by
  cases hx : alistLookup ALPHA3_TO_ALPHA2 c.code with
  | none => simp [addAlpha2, hx]
  | some a2 => simp [addAlpha2, hx]

theorem addAlpha2_medals (c : CountryDoc) : (addAlpha2 c).medals = c.medals := by
  cases hx : alistLookup ALPHA3_TO_ALPHA2 c.code with
  | none => simp [addAlpha2, hx]
  | some a2 => simp [addAlpha2, hx]

theorem addAlpha2_idem (c : CountryDoc) : addAlpha2 (addAlpha2 c) = addAlpha2 c := by
  cases hx : alistLookup ALPHA3_TO_ALPHA2 c.code with
  | none => simp [addAlpha2, hx]
  | some a2 => simp [addAlpha2, hx]

/-- C1: in every aggregated output each country's combined tally is the
field-wise sum of its IMO, IOI and IPhO tallies, with combined.total the
sum of the three per-source total fields; and every per-source tally any
of the three parsers builds from a source row has total equal to
gold+silver+bronze. -/
theorem combined_is_fieldwise_sum_and_row_totals :
    (∀ imo_data ioi_data ipho_data : List (String × MedalTally),
      ∀ e ∈ aggregate_data imo_data ioi_data ipho_data,
        e.medals.combined.gold = e.medals.imo.gold + e.medals.ioi.gold + e.medals.ipho.gold ∧
        e.medals.combined.silver =
          e.medals.imo.silver + e.medals.ioi.silver + e.medals.ipho.silver ∧
        e.medals.combined.bronze =
          e.medals.imo.bronze + e.medals.ioi.bronze + e.medals.ipho.bronze ∧
        e.medals.combined.total =
          e.medals.imo.total + e.medals.ioi.total + e.medals.ipho.total) ∧
    (∀ rows : List ImoRow, ∀ p ∈ parse_imo_rows rows,
      p.2.total = p.2.gold + p.2.silver + p.2.bronze) ∧
    (∀ rows : List SourceRow, ∀ p ∈ parse_ioi_rows rows,
      p.2.total = p.2.gold + p.2.silver + p.2.bronze) ∧
    (∀ rows : List SourceRow, ∀ p ∈ parse_ipho_rows rows,
      p.2.total = p.2.gold + p.2.silver + p.2.bronze) := by
  refine ⟨?_, ?_, ?_, ?_⟩
  · intro imo_data ioi_data ipho_data e he
    rcases (mem_aggregate_data imo_data ioi_data ipho_data e).mp he with ⟨cd, hcd, rfl⟩
    exact ⟨rfl, rfl, rfl, rfl⟩
  · intro rows p hp
    exact parseFold_inv imoProcessRow (fun t => t.total = t.gold + t.silver + t.bronze)
      (fun r n t h => imoProcessRow_total r n t h) rows p hp
  · intro rows p hp
    exact parseFold_inv ioiProcessRow (fun t => t.total = t.gold + t.silver + t.bronze)
      (fun r n t h => ioiProcessRow_total r n t h) rows p hp
  · intro rows p hp
    exact parseFold_inv iphoProcessRow (fun t => t.total = t.gold + t.silver + t.bronze)
      (fun r n t h => iphoProcessRow_total r n t h) rows p hp

/-- Witness for C1 at the end-to-end France scenario of the spec and a
concrete IMO source row. -/
theorem combined_is_fieldwise_sum_and_row_totals_witness :
    ({ code := "FRA", name := some "France"
     , medals :=
       { imo := ⟨10, 5, 2, 17⟩, ioi := ⟨3, 1, 0, 4⟩, ipho := ⟨0, 0, 0, 0⟩
       , combined := ⟨13, 6, 2, 21⟩ } } : CanonicalCountry).medals.combined.total =
        17 + 4 + 0 ∧
    (("France", ⟨10, 5, 2, 17⟩) : String × MedalTally).2.total = 10 + 5 + 2 := by
  constructor
  · exact (combined_is_fieldwise_sum_and_row_totals.1
      [("France", ⟨10, 5, 2, 17⟩)] [("France", ⟨3, 1, 0, 4⟩)] [] _ (by decide)).2.2.2
  · exact combined_is_fieldwise_sum_and_row_totals.2.1
      [⟨"France", "France", some 10, some 5, some 2⟩] ("France", ⟨10, 5, 2, 17⟩)
      (by decide)

/-- C3: output country codes are pairwise unique, and the set of output
codes is exactly the union of the code sets produced by the three
per-source normalizations. -/
theorem aggregate_codes_unique_and_union
    (imo_data ioi_data ipho_data : List (String × MedalTally)) :
    ((aggregate_data imo_data ioi_data ipho_data).map (fun e => e.code)).Nodup ∧
    (∀ s, s ∈ (aggregate_data imo_data ioi_data ipho_data).map (fun e => e.code) ↔
      (s ∈ alistKeys (normalize_country_names imo_data) ∨
       s ∈ alistKeys (normalize_country_names ioi_data) ∨
       s ∈ alistKeys (normalize_country_names ipho_data))) := by
  have hperm := (aggregate_data_perm imo_data ioi_data ipho_data).map (fun e => e.code)
  have hmap : ((allCodes (normalize_country_names imo_data)
      (normalize_country_names ioi_data) (normalize_country_names ipho_data)).map
        (mkCountry (normalize_country_names imo_data) (normalize_country_names ioi_data)
          (normalize_country_names ipho_data))).map (fun e => e.code) =
      allCodes (normalize_country_names imo_data) (normalize_country_names ioi_data)
        (normalize_country_names ipho_data) := by
    rw [List.map_map]
    simp [Function.comp_def, mkCountry_code]
  rw [hmap] at hperm
  constructor
  · exact hperm.nodup_iff.mpr (List.nodup_dedup _)
  · intro s
    rw [hperm.mem_iff]
    exact mem_allCodes _ _ _ s

/-- C5: the aggregated output is sorted by combined total descending:
every adjacent pair has the earlier combined.total at least the later. -/
theorem aggregate_sorted_by_combined_total_desc
    (imo_data ioi_data ipho_data : List (String × MedalTally)) :
    List.Chain' (fun x y : CanonicalCountry =>
        y.medals.combined.total ≤ x.medals.combined.total)
      (aggregate_data imo_data ioi_data ipho_data) := by
  have h := List.sorted_insertionSort byCombinedTotalDesc
    ((allCodes (normalize_country_names imo_data) (normalize_country_names ioi_data)
        (normalize_country_names ipho_data)).map
      (mkCountry (normalize_country_names imo_data) (normalize_country_names ioi_data)
        (normalize_country_names ipho_data)))
  exact List.Pairwise.chain' h

/-- C6: an empty record sequence for a competition still aggregates,
contributing a zero tally to every country; and a code resolved by at
least one source appears exactly once in the output, with a zero tally
for every source that did not resolve it (in particular all-zero
tallies for the two absent sources of a single-source country). -/
theorem aggregate_empty_and_absent_sources
    (imo_data ioi_data ipho_data : List (String × MedalTally)) (code : String) :
    normalize_country_names [] = [] ∧
    (∀ e ∈ aggregate_data [] ioi_data ipho_data, e.medals.imo = zeroTally) ∧
    (∀ e ∈ aggregate_data imo_data [] ipho_data, e.medals.ioi = zeroTally) ∧
    (∀ e ∈ aggregate_data imo_data ioi_data [], e.medals.ipho = zeroTally) ∧
    ((code ∈ alistKeys (normalize_country_names imo_data) ∨
      code ∈ alistKeys (normalize_country_names ioi_data) ∨
      code ∈ alistKeys (normalize_country_names ipho_data)) →
      ((aggregate_data imo_data ioi_data ipho_data).countP
          (fun e => e.code == code) = 1 ∧
        ∀ e ∈ aggregate_data imo_data ioi_data ipho_data, e.code = code →
          (code ∉ alistKeys (normalize_country_names imo_data) →
            e.medals.imo = zeroTally) ∧
          (code ∉ alistKeys (normalize_country_names ioi_data) →
            e.medals.ioi = zeroTally) ∧
          (code ∉ alistKeys (normalize_country_names ipho_data) →
            e.medals.ipho = zeroTally))) := by
  refine ⟨rfl, ?_, ?_, ?_, ?_⟩
  · intro e he
    rcases (mem_aggregate_data [] ioi_data ipho_data e).mp he with ⟨cd, hcd, rfl⟩
    rfl
  · intro e he
    rcases (mem_aggregate_data imo_data [] ipho_data e).mp he with ⟨cd, hcd, rfl⟩
    rfl
  · intro e he
    rcases (mem_aggregate_data imo_data ioi_data [] e).mp he with ⟨cd, hcd, rfl⟩
    rfl
  · intro hmem
    constructor
    · rw [(aggregate_data_perm imo_data ioi_data ipho_data).countP_eq, List.countP_map]
      show List.count code (allCodes (normalize_country_names imo_data)
        (normalize_country_names ioi_data) (normalize_country_names ipho_data)) = 1
      exact List.count_eq_one_of_mem (List.nodup_dedup _)
        ((mem_allCodes _ _ _ code).mpr hmem)
    · intro e he hcode
      rcases (mem_aggregate_data imo_data ioi_data ipho_data e).mp he with ⟨cd, hcd, rfl⟩
      have hcd' : cd = code := hcode
      subst hcd'
      refine ⟨?_, ?_, ?_⟩
      · intro habs
        show getMedals (normalize_country_names imo_data) cd = zeroTally
        exact getMedals_eq_zeroTally _ _ habs
      · intro habs
        show getMedals (normalize_country_names ioi_data) cd = zeroTally
        exact getMedals_eq_zeroTally _ _ habs
      · intro habs
        show getMedals (normalize_country_names ipho_data) cd = zeroTally
        exact getMedals_eq_zeroTally _ _ habs

/-- Witness for C6: France appears only in the IMO input; its entry is
unique and its IOI tally is all-zero. -/
theorem aggregate_empty_and_absent_sources_witness :
    (aggregate_data [("France", ⟨10, 5, 2, 17⟩)] [] []).countP
        (fun e => e.code == "FRA") = 1 ∧
    ({ code := "FRA", name := some "France"
     , medals :=
       { imo := ⟨10, 5, 2, 17⟩, ioi := ⟨0, 0, 0, 0⟩, ipho := ⟨0, 0, 0, 0⟩
       , combined := ⟨10, 5, 2, 17⟩ } } : CanonicalCountry).medals.ioi = zeroTally := by
  constructor
  · exact ((aggregate_empty_and_absent_sources
      [("France", ⟨10, 5, 2, 17⟩)] [] [] "FRA").2.2.2.2 (by decide)).1
  · exact (((aggregate_empty_and_absent_sources
      [("France", ⟨10, 5, 2, 17⟩)] [] [] "FRA").2.2.2.2 (by decide)).2 _
      (by decide) (by decide)).2.1 (by decide)

/-- C2: when a raw label resolves to a code that is already present, the
normalizer keeps the entry whose name is shorter (the existing one on a
length tie), and the losing entry's tally is discarded, not merged: on a
two-record input with colliding codes the output holds exactly the
winning record's name and tally. -/
theorem normalize_collision_tie_break :
    (∀ (normalized : List (String × Entry)) (country_name : String)
        (medals : MedalTally) (existing : Entry),
      alistLookup normalized (resolveCode country_name) = some existing →
      alistLookup (normalizeStep normalized country_name medals)
          (resolveCode country_name) =
        some (if existing.name.length ≤ country_name.length then existing
          else ⟨country_name, medals⟩)) ∧
    (∀ (l1 l2 : String) (t1 t2 : MedalTally), l1 ≠ l2 →
      resolveCode l2 = resolveCode l1 →
      normalize_country_names [(l1, t1), (l2, t2)] =
        [(resolveCode l1, if l1.length ≤ l2.length then ⟨l1, t1⟩ else ⟨l2, t2⟩)]) := by
  constructor
  · intro normalized country_name medals existing hx
    rw [normalizeStep]
    simp only [hx]
    by_cases hlen : existing.name.length ≤ country_name.length
    · rw [if_pos hlen, if_pos hlen]
      exact hx
    · rw [if_neg hlen, if_neg hlen]
      exact alistLookup_alistInsert_self _ _ _
  · intro l1 l2 t1 t2 hne hr
    have h1 : normalizeStep [] l1 t1 = [(resolveCode l1, ⟨l1, t1⟩)] := by
      rw [normalizeStep]
      simp only [alistLookup]
      rw [alistInsert]
    rw [normalize_country_names]
    simp only [List.foldl_cons, List.foldl_nil, h1]
    rw [normalizeStep]
    simp only [hr]
    have h2 : alistLookup [(resolveCode l1, (⟨l1, t1⟩ : Entry))] (resolveCode l1) =
        some ⟨l1, t1⟩ := by
      simp [alistLookup]
    simp only [h2]
    by_cases hlen : l1.length ≤ l2.length
    · rw [if_pos hlen, if_pos hlen]
    · rw [if_neg hlen, if_neg hlen]
      rw [alistInsert_cons_self]

/-- Witness for C2 at the spec's China / Macao, China example: the
shorter first name wins and only its tally is kept. -/
theorem normalize_collision_tie_break_witness :
    normalize_country_names [("China", ⟨1, 2, 3, 6⟩), ("Macao, China", ⟨4, 5, 6, 15⟩)] =
      [("CHN", ⟨"China", ⟨1, 2, 3, 6⟩⟩)] := by
  rw [normalize_collision_tie_break.2 "China" "Macao, China" ⟨1, 2, 3, 6⟩ ⟨4, 5, 6, 15⟩
    (by decide) (by decide)]
  decide

theorem strUpper_strTake_length (s : String) (n : Nat) :
    (strUpper (strTake s n)).length = min n s.length := by
  obtain ⟨d⟩ := s
  show ((d.take n).map Char.toUpper).length = _
  rw [List.length_map, List.length_take]
  rfl

set_option maxRecDepth 4096 in
/-- C7: name resolution is a total function (the embedding of a Python
function that raises no exception) and returns a non-empty code string
for every input label, through whichever of its three branches fires. -/
theorem resolveCode_nonempty (country_name : String) : resolveCode country_name ≠ "" := by
  by_cases hempty : country_name = ""
  · subst hempty
    decide
  · cases hx : alistLookup COUNTRY_CODE_MAP country_name with
    | some code =>
      have h1 : resolveCode country_name = code := by
        rw [resolveCode, resolveResult, hx]
      rw [h1]
      exact (by decide : ∀ p ∈ COUNTRY_CODE_MAP, p.2 ≠ "") _
        (alistLookup_some_mem _ _ _ hx)
    | none =>
      cases hf : COUNTRY_CODE_MAP.find? (fun p =>
          strContainsCI country_name p.1 || strContainsCI p.1 country_name) with
      | some q =>
        have h1 : resolveCode country_name = q.2 := by
          rw [resolveCode, resolveResult, hx, hf]
        rw [h1]
        exact (by decide : ∀ p ∈ COUNTRY_CODE_MAP, p.2 ≠ "") _
          (List.mem_of_find?_eq_some hf)
      | none =>
        have h1 : resolveCode country_name = strUpper (strTake country_name 3) := by
          rw [resolveCode, resolveResult, hx, hf]
        rw [h1]
        intro heq
        have hdd : (country_name.data.take 3).map Char.toUpper = [] :=
          congrArg String.data heq
        rcases List.take_eq_nil_iff.mp (List.map_eq_nil_iff.mp hdd) with h3 | h3
        · exact absurd h3 (by decide)
        · exact hempty (String.ext (h3.trans rfl))

/-- C8 as stated is refuted at the two-character label "Xy": it matches
neither the exact lookup nor the substring fallback, and the resolver
returns the 2-character pseudo-code "XY", not a 3-character one. -/
theorem resolver_pseudo_code_not_three_chars :
    alistLookup COUNTRY_CODE_MAP "Xy" = none ∧
    COUNTRY_CODE_MAP.find? (fun p =>
      strContainsCI "Xy" p.1 || strContainsCI p.1 "Xy") = none ∧
    resolveResult "Xy" = ("XY", true) ∧
    ("XY" : String).length = 2 ∧ ¬("XY" : String).length = 3 := by decide

/-- C8 amended: when neither the exact lookup nor the substring fallback
matches, the resolver returns the upper-cased first min(3, length)
characters of the raw label with the diagnostic warning emitted; the
pseudo-code has exactly 3 characters whenever the label does. -/
theorem resolver_unresolved_fallback (country_name : String)
    (h1 : alistLookup COUNTRY_CODE_MAP country_name = none)
    (h2 : COUNTRY_CODE_MAP.find? (fun p =>
      strContainsCI country_name p.1 || strContainsCI p.1 country_name) = none) :
    resolveResult country_name = (strUpper (strTake country_name 3), true) ∧
    (strUpper (strTake country_name 3)).length = min 3 country_name.length ∧
    (3 ≤ country_name.length → (strUpper (strTake country_name 3)).length = 3) := by
  have hlen := strUpper_strTake_length country_name 3
  refine ⟨by rw [resolveResult, h1, h2], hlen, ?_⟩
  intro h3
  rw [hlen]
  exact Nat.min_eq_left h3

/-- Witness for amended C8 at the unmatched label "Qwerty". -/
theorem resolver_unresolved_fallback_witness :
    resolveResult "Qwerty" = (strUpper (strTake "Qwerty" 3), true) ∧
    (strUpper (strTake "Qwerty" 3)).length = min 3 ("Qwerty" : String).length ∧
    (3 ≤ ("Qwerty" : String).length → (strUpper (strTake "Qwerty" 3)).length = 3) :=
  resolver_unresolved_fallback "Qwerty" (by decide) (by decide)

set_option maxRecDepth 8192 in
/-- C10: the empty raw label is a case-insensitive substring of every
dictionary name, so resolution never reaches the pseudo-code branch: the
fallback scan fires on the first entry in insertion order and returns
"USA" (with no warning), under which the record is entered. -/
theorem empty_label_resolves_to_first_entry :
    (∀ p ∈ COUNTRY_CODE_MAP, strContainsCI p.1 "" = true) ∧
    alistLookup COUNTRY_CODE_MAP "" = none ∧
    COUNTRY_CODE_MAP.find? (fun p =>
      strContainsCI "" p.1 || strContainsCI p.1 "") = some ("United States", "USA") ∧
    resolveResult "" = ("USA", false) ∧
    normalize_country_names [("", ⟨1, 2, 3, 6⟩)] = [("USA", ⟨"", ⟨1, 2, 3, 6⟩⟩)] := by
  decide

/-- C4 as stated is refuted in the IOI parser: its historical check is
exact, case-sensitive membership of the extracted label, not
case-insensitive substring containment of the cell text, so a row
labelled "soviet union" (which contains "Soviet Union"
case-insensitively) is kept and enters name resolution. -/
theorem ioi_historical_substring_not_discarded :
    ("Soviet Union" ∈ HISTORICAL_COUNTRIES) ∧
    strContainsCI "soviet union" "Soviet Union" = true ∧
    ioiProcessRow ⟨"soviet union", some 1, some 0, some 0⟩ =
      some ("soviet union", ⟨1, 0, 0, 1⟩) := by decide

/-- C4 amended: the IMO parser discards any row whose country cell text
contains, case-insensitively as a substring, a name of the Historical
Set; the IOI and IPhO parsers discard a row exactly when its extracted
label is, case-sensitively and exactly, a member of the Historical Set.
In particular a raw label equal to "Soviet Union" contributes no record
in any of the three parsers. -/
theorem historical_rows_discarded :
    (∀ r : ImoRow, (∃ hn ∈ HISTORICAL_COUNTRIES, strContainsCI r.cellText hn = true) →
      imoProcessRow r = none) ∧
    (∀ r : SourceRow, r.countryName ∈ HISTORICAL_COUNTRIES → ioiProcessRow r = none) ∧
    (∀ r : SourceRow, r.countryName ∈ HISTORICAL_COUNTRIES → iphoProcessRow r = none) ∧
    (∀ r : ImoRow, r.cellText = "Soviet Union" → imoProcessRow r = none) ∧
    (∀ r : SourceRow, r.countryName = "Soviet Union" →
      ioiProcessRow r = none ∧ iphoProcessRow r = none) := by
  have himo : ∀ r : ImoRow,
      (∃ hn ∈ HISTORICAL_COUNTRIES, strContainsCI r.cellText hn = true) →
      imoProcessRow r = none := by
    intro r hex
    obtain ⟨hn, hnmem, hcont⟩ := hex
    rw [imoProcessRow]
    by_cases hlen : r.countryName.length ≤ 2
    · rw [if_pos hlen]
    · rw [if_neg hlen]
      cases hfind : findHistorical r.cellText with
      | none =>
        exfalso
        rw [findHistorical] at hfind
        exact (List.find?_eq_none.mp hfind hn hnmem) hcont
      | some h' =>
        have hmem' : h' ∈ HISTORICAL_COUNTRIES := by
          rw [findHistorical] at hfind
          exact List.mem_of_find?_eq_some hfind
        show (if h' ∈ HISTORICAL_COUNTRIES then none
          else Option.map (fun t => (h', t)) (rowTally r.gold r.silver r.bronze)) = none
        rw [if_pos hmem']
  have hioi : ∀ r : SourceRow, r.countryName ∈ HISTORICAL_COUNTRIES →
      ioiProcessRow r = none := by
    intro r hmem
    rw [ioiProcessRow, if_pos hmem]
  have hipho : ∀ r : SourceRow, r.countryName ∈ HISTORICAL_COUNTRIES →
      iphoProcessRow r = none := by
    intro r hmem
    rw [iphoProcessRow, if_pos hmem]
  refine ⟨himo, hioi, hipho, ?_, ?_⟩
  · intro r hcell
    refine himo r ⟨"Soviet Union", by decide, ?_⟩
    rw [hcell]
    decide
  · intro r hname
    have hmem : r.countryName ∈ HISTORICAL_COUNTRIES := by
      rw [hname]
      decide
    exact ⟨hioi r hmem, hipho r hmem⟩

/-- Witness for amended C4 at concrete Soviet-Union rows of each parser. -/
theorem historical_rows_discarded_witness :
    imoProcessRow ⟨"Soviet Union", "Soviet Union[a]", some 77, some 67, some 45⟩ = none ∧
    ioiProcessRow ⟨"Soviet Union", some 1, some 2, some 3⟩ = none ∧
    iphoProcessRow ⟨"Soviet Union", some 4, some 5, some 6⟩ = none := by
  refine ⟨?_, ?_, ?_⟩
  · exact historical_rows_discarded.1
      ⟨"Soviet Union", "Soviet Union[a]", some 77, some 67, some 45⟩
      ⟨"Soviet Union", by decide, by decide⟩
  · exact historical_rows_discarded.2.1 ⟨"Soviet Union", some 1, some 2, some 3⟩ (by decide)
  · exact historical_rows_discarded.2.2.1 ⟨"Soviet Union", some 4, some 5, some 6⟩
      (by decide)

/-- C9: the alpha-2 augmentation is idempotent, never alters any
country's code, name or medals, and only sets the alpha2 key, doing so
exactly for the countries whose code is in the alpha-3-to-alpha-2 map. -/
theorem alpha2_idempotent_and_medals_preserved
    (countries : List CountryDoc) (c : CountryDoc) :
    add_alpha2_codes (add_alpha2_codes countries) = add_alpha2_codes countries ∧
    (add_alpha2_codes countries).map (fun d => d.medals) =
      countries.map (fun d => d.medals) ∧
    (addAlpha2 c).medals = c.medals ∧
    (addAlpha2 c).code = c.code ∧
    (addAlpha2 c).name = c.name ∧
    (alistLookup ALPHA3_TO_ALPHA2 c.code = none → addAlpha2 c = c) ∧
    (∀ a2, alistLookup ALPHA3_TO_ALPHA2 c.code = some a2 →
      addAlpha2 c = { c with alpha2 := some a2 }) := by
  refine ⟨?_, ?_, addAlpha2_medals c, addAlpha2_code c, addAlpha2_name c, ?_, ?_⟩
  · rw [add_alpha2_codes, add_alpha2_codes, List.map_map]
    exact List.map_congr_left (fun d _ => addAlpha2_idem d)
  · rw [add_alpha2_codes, List.map_map]
    exact List.map_congr_left (fun d _ => addAlpha2_medals d)
  · intro hx
    simp [addAlpha2, hx]
  · intro a2 hx
    simp [addAlpha2, hx]

/-- Witness for C9 at a mapped code ("USA") and an unmapped one. -/
theorem alpha2_idempotent_and_medals_preserved_witness :
    addAlpha2 { code := "USA", name := some "United States"
              , medals :=
                { imo := ⟨1, 2, 3, 6⟩, ioi := ⟨0, 0, 0, 0⟩, ipho := ⟨0, 0, 0, 0⟩
                , combined := ⟨1, 2, 3, 6⟩ }
              , alpha2 := none } =
      { code := "USA", name := some "United States"
      , medals :=
        { imo := ⟨1, 2, 3, 6⟩, ioi := ⟨0, 0, 0, 0⟩, ipho := ⟨0, 0, 0, 0⟩
        , combined := ⟨1, 2, 3, 6⟩ }
      , alpha2 := some "US" } ∧
    addAlpha2 { code := "ZZZ", name := none
              , medals :=
                { imo := ⟨0, 0, 0, 0⟩, ioi := ⟨0, 0, 0, 0⟩, ipho := ⟨0, 0, 0, 0⟩
                , combined := ⟨0, 0, 0, 0⟩ }
              , alpha2 := none } =
      { code := "ZZZ", name := none
      , medals :=
        { imo := ⟨0, 0, 0, 0⟩, ioi := ⟨0, 0, 0, 0⟩, ipho := ⟨0, 0, 0, 0⟩
        , combined := ⟨0, 0, 0, 0⟩ }
      , alpha2 := none } := by
  constructor
  · exact (alpha2_idempotent_and_medals_preserved [] _).2.2.2.2.2.2 "US" (by decide)
  · exact (alpha2_idempotent_and_medals_preserved [] _).2.2.2.2.2.1 (by decide)

/-- Witness for C7 at a label of each branch: an exact match, a
substring-fallback match, and a pseudo-code fallback. -/
theorem resolveCode_nonempty_witness :
    resolveCode "United States" ≠ "" ∧ resolveCode "Macao, China" ≠ "" ∧
    resolveCode "Zzz" ≠ "" ∧ resolveCode "" ≠ "" :=
  ⟨resolveCode_nonempty "United States", resolveCode_nonempty "Macao, China",
   resolveCode_nonempty "Zzz", resolveCode_nonempty ""⟩
